import Mathlib

/-!
A shallow embedding of the combat-sports scraper (`scraper.py`) and proofs
about its date normalizer, date/time splitter, per-row candidate pipeline,
fetch-failure handling and pagination controller.

Python strings are modelled as Lean `String` (logically a `List Char`);
the regular expressions used by the source are modelled by hand as
character-list scanners that follow Python `re` semantics (leftmost match,
greedy quantifiers with the backtracking the concrete patterns need).
Character classes (`\s`, `\w`, `\d`) are modelled over their ASCII
portions, which is what the scraped data uses.
-/

/-- Python `\s` (ASCII portion): the characters stripped by `str.strip()`
and matched by `\s` in the source's regexes. -/
def pyIsSpace (c : Char) : Bool :=
  c == ' ' || c == '\t' || c == '\n' || c == '\r' || c == '\x0b' || c == '\x0c'

/-- Python `\w` (ASCII portion): alphanumeric or underscore. -/
def isWordChar (c : Char) : Bool :=
  c.isAlphanum || c == '_'

/-- The two characters stripped by `.strip(", ")` in `split_date_time`. -/
def isCommaSpace (c : Char) : Bool :=
  c == ',' || c == ' '

/-- Remove the longest run of characters satisfying `p` from the left. -/
def stripLeftP (p : Char → Bool) (l : List Char) : List Char :=
  l.dropWhile p

/-- Remove the longest run of characters satisfying `p` from the right. -/
def stripRightP (p : Char → Bool) (l : List Char) : List Char :=
  (l.reverse.dropWhile p).reverse

/-- Remove runs of characters satisfying `p` from both ends
(Python `str.strip` / `str.strip(chars)`). -/
def stripBothP (p : Char → Bool) (l : List Char) : List Char :=
  stripRightP p (stripLeftP p l)

/-- Python `s.strip()` on strings. -/
def pyStrip (s : String) : String :=
  String.mk (stripBothP pyIsSpace s.data)

/-- Python `s.lower()` (ASCII portion). -/
def lowerStr (s : String) : String :=
  String.mk (s.data.map Char.toLower)

/-- Python `s.startswith(p)`. -/
def pyStartsWith (p s : String) : Bool :=
  p.data.isPrefixOf s.data

/-- Python `s.endswith(p)`. -/
def pyEndsWith (p s : String) : Bool :=
  p.data.isSuffixOf s.data

/-- If `p` is a leading run of `l`, return the remainder. -/
def dropStart? : List Char → List Char → Option (List Char)
  | [], l => some l
  | _ :: _, [] => none
  | p :: ps, c :: cs => if p == c then dropStart? ps cs else none

/-- Split `l` at the first occurrence of `sep` (Python `s.split(sep, 1)`
when `sep` occurs): returns the text before and after the occurrence. -/
def splitFirstAux (sep : List Char) : List Char → Option (List Char × List Char)
  | [] => none
  | c :: rest =>
    match dropStart? sep (c :: rest) with
    | some after => some ([], after)
    | none => (splitFirstAux sep rest).map fun ba => (c :: ba.1, ba.2)

/-- Python `needle in haystack` (non-empty needles). -/
def containsTok (needle hay : List Char) : Bool :=
  (splitFirstAux needle hay).isSome

/-- Python `s.split(sep)` for a non-empty separator, with enough fuel. -/
def pySplitOnL (sep : List Char) : Nat → List Char → List (List Char)
  | 0, l => [l]
  | fuel + 1, l =>
    match splitFirstAux sep l with
    | none => [l]
    | some ba => ba.1 :: pySplitOnL sep fuel ba.2

def pySplitOn (sep s : String) : List String :=
  (pySplitOnL sep.data (s.data.length + 1) s.data).map String.mk

/-- `"sep".join(parts)` (used to model `get_text(" \u2022 ")`). -/
def joinSep (sep : String) : List String → String
  | [] => ""
  | [x] => x
  | x :: y :: rest => x ++ sep ++ joinSep sep (y :: rest)

/-- The weekday names tried, in the source regex's alternation order
(`scraper.py` line 30). -/
def dayNamesList : List (List Char) :=
  ["Monday".data, "Tuesday".data, "Wednesday".data, "Thursday".data,
   "Friday".data, "Saturday".data, "Sunday".data]

/-- One attempt of the pattern `(Monday|...|Sunday),?\s*` anchored at the
head of `l`: if a weekday name starts here, consume it, an optional comma
and any following whitespace run. -/
def tryWeekdayAt (l : List Char) : Option (List Char) :=
  match dayNamesList.findSome? (fun n => dropStart? n l) with
  | none => none
  | some rest =>
    let rest1 := match rest with
      | ',' :: r => r
      | r => r
    some (rest1.dropWhile pyIsSpace)

/-- `re.sub(r'(Monday|...|Sunday),?\s*', '', s)`: global leftmost
non-overlapping replacement by the empty string.  Every match consumes at
least one character, so `fuel = l.length` suffices. -/
def subWeekdaysAux : Nat → List Char → List Char
  | 0, l => l
  | _, [] => []
  | fuel + 1, c :: rest =>
    match tryWeekdayAt (c :: rest) with
    | some rest' => subWeekdaysAux fuel rest'
    | none => c :: subWeekdaysAux fuel rest

def subWeekdays (l : List Char) : List Char :=
  subWeekdaysAux l.length l

/-- The `(st|nd|rd|th)` group of the ordinal-suffix regex. -/
def ordSuffix? : List Char → Option (List Char)
  | 's' :: 't' :: r => some r
  | 'n' :: 'd' :: r => some r
  | 'r' :: 'd' :: r => some r
  | 't' :: 'h' :: r => some r
  | _ => none

/-- `re.sub(r'(\d+)(st|nd|rd|th)', r'\1', s)`: a maximal digit run keeps
itself and drops an immediately following ordinal suffix.  (Since `\d+` is
greedy and the suffix starts with a letter, a match can only sit at the end
of a maximal digit run, so scanning run-by-run is equivalent to the
regex's leftmost scan.) -/
def subOrdinalsAux : Nat → List Char → List Char
  | 0, l => l
  | _, [] => []
  | fuel + 1, c :: rest =>
    if c.isDigit then
      let run := (c :: rest).takeWhile Char.isDigit
      let rest2 := (c :: rest).dropWhile Char.isDigit
      match ordSuffix? rest2 with
      | some r => run ++ subOrdinalsAux fuel r
      | none => run ++ subOrdinalsAux fuel rest2
    else c :: subOrdinalsAux fuel rest

def subOrdinals (l : List Char) : List Char :=
  subOrdinalsAux l.length l

/-- `re.sub(r'\s+', ' ', s)`: collapse every whitespace run to one space. -/
def collapseWsAux : Nat → List Char → List Char
  | 0, l => l
  | _, [] => []
  | fuel + 1, c :: rest =>
    if pyIsSpace c then ' ' :: collapseWsAux fuel (rest.dropWhile pyIsSpace)
    else c :: collapseWsAux fuel rest

def collapseWs (l : List Char) : List Char :=
  collapseWsAux l.length l

/-- The cleaning stage of `parse_event_date` (`scraper.py` lines 30-33):
strip weekday names, then `.strip()`, drop ordinal suffixes, remove dots,
`.strip()` again, and collapse whitespace runs. -/
def cleanDateStr (s : String) : String :=
  let c1 := stripBothP pyIsSpace (subWeekdays s.data)
  let c2 := subOrdinals c1
  let c3 := stripBothP pyIsSpace (c2.filter (fun c => !(c == '.')))
  String.mk (collapseWs c3)

/-- One position of `re.search(r'\b\d{4}\b', s)`: four digits start here,
the previous character (if any) is a non-word character and so is the
character after the four digits (if any). -/
def fourDigitAt (prev : Option Char) (l : List Char) : Bool :=
  match l with
  | a :: b :: c :: d :: rest =>
    a.isDigit && b.isDigit && c.isDigit && d.isDigit
    && (match prev with | none => true | some p => !(isWordChar p))
    && (match rest with | [] => true | e :: _ => !(isWordChar e))
  | _ => false

def hasFourAux (prev : Option Char) : List Char → Bool
  | [] => false
  | c :: rest => fourDigitAt prev (c :: rest) || hasFourAux (some c) rest

/-- `re.search(r'\b\d{4}\b', s)` as a Boolean (`scraper.py` line 38). -/
def hasFourDigitYear (s : String) : Bool :=
  hasFourAux none s.data

/-- Month names matched by `%B` in `strptime`, lowercase for the
case-insensitive comparison Python performs. -/
def monthsFull : List (Nat × List Char) :=
  [(1, "january".data), (2, "february".data), (3, "march".data),
   (4, "april".data), (5, "may".data), (6, "june".data), (7, "july".data),
   (8, "august".data), (9, "september".data), (10, "october".data),
   (11, "november".data), (12, "december".data)]

/-- Abbreviated month names matched by `%b` in `strptime`. -/
def monthsAbbr : List (Nat × List Char) :=
  [(1, "jan".data), (2, "feb".data), (3, "mar".data), (4, "apr".data),
   (5, "may".data), (6, "jun".data), (7, "jul".data), (8, "aug".data),
   (9, "sep".data), (10, "oct".data), (11, "nov".data), (12, "dec".data)]

/-- Case-insensitive variant of `dropStart?`; the pattern is lowercase. -/
def dropStartCI? : List Char → List Char → Option (List Char)
  | [], l => some l
  | _ :: _, [] => none
  | p :: ps, c :: cs => if p == c.toLower then dropStartCI? ps cs else none

/-- Match one month name of `tbl` at the head of `l` (no month name is a
prefix of another within a table, so alternation order is immaterial). -/
def matchMonth (tbl : List (Nat × List Char)) (l : List Char) :
    Option (Nat × List Char) :=
  tbl.findSome? fun mn => (dropStartCI? mn.2 l).map fun r => (mn.1, r)

/-- Whitespace in a `strptime` format string matches `\s+`. -/
def skipWs1 : List Char → Option (List Char)
  | [] => none
  | c :: rest =>
    if pyIsSpace c then some (rest.dropWhile pyIsSpace) else none

def digitVal (c : Char) : Nat := c.toNat - '0'.toNat

/-- Candidate matches for `%d`, whose `strptime` regex is
`(3[01]|[12]\d|0[1-9]|[1-9])`: the two-digit alternatives first (they are
mutually exclusive and accept exactly the values 1-31 written with two
digits), then the one-digit alternative, in backtracking order. -/
def dayCands : List Char → List (Nat × List Char)
  | a :: b :: r =>
    (if a.isDigit ∧ b.isDigit ∧ 1 ≤ 10 * digitVal a + digitVal b ∧
        10 * digitVal a + digitVal b ≤ 31
     then [(10 * digitVal a + digitVal b, r)] else [])
    ++ (if a.isDigit ∧ 1 ≤ digitVal a then [(digitVal a, b :: r)] else [])
  | [a] => if a.isDigit ∧ 1 ≤ digitVal a then [(digitVal a, [])] else []
  | [] => []

/-- `%Y` in `strptime` matches exactly four digits. -/
def year4? : List Char → Option (Nat × List Char)
  | a :: b :: c :: d :: r =>
    if a.isDigit ∧ b.isDigit ∧ c.isDigit ∧ d.isDigit then
      some (1000 * digitVal a + 100 * digitVal b + 10 * digitVal c
            + digitVal d, r)
    else none
  | _ => none

/-- A calendar date, the `parsed_instant` carried by `datetime` values in
the source (times are always midnight there). -/
structure Date where
  year : Nat
  month : Nat
  day : Nat
deriving DecidableEq

def isLeapB (y : Nat) : Bool :=
  y % 4 == 0 && (!(y % 100 == 0) || y % 400 == 0)

def daysInMonth (y m : Nat) : Nat :=
  if m = 2 then (if isLeapB y then 29 else 28)
  else if m = 4 ∨ m = 6 ∨ m = 9 ∨ m = 11 then 30
  else 31

/-- The validity check performed by the `datetime` constructor (and so by
`strptime` and `datetime.replace`); violating it raises `ValueError`. -/
def validDate (y m d : Nat) : Prop :=
  1 ≤ y ∧ y ≤ 9999 ∧ 1 ≤ m ∧ m ≤ 12 ∧ 1 ≤ d ∧ d ≤ daysInMonth y m

instance (y m d : Nat) : Decidable (validDate y m d) := by
  unfold validDate; infer_instance

/-- `strptime` with format `"%B %d, %Y"` / `"%b %d, %Y"` (comma := true) or
`"%B %d %Y"` / `"%b %d %Y"` (comma := false), up to the whole-string match
requirement; returns `(month, day, year)` before the constructor check. -/
def fmtMDY (tbl : List (Nat × List Char)) (comma : Bool) (l : List Char) :
    Option (Nat × Nat × Nat) :=
  (matchMonth tbl l).bind fun mr =>
  (skipWs1 mr.2).bind fun r2 =>
  (dayCands r2).findSome? fun dr =>
    let sep : Option (List Char) :=
      if comma then
        match dr.2 with
        | ',' :: r4 => skipWs1 r4
        | _ => none
      else skipWs1 dr.2
    sep.bind fun r5 =>
    (year4? r5).bind fun yr =>
    if yr.2 = [] then some (mr.1, dr.1, yr.1) else none

/-- `strptime` with format `"%B %d"` / `"%b %d"`. -/
def fmtMD (tbl : List (Nat × List Char)) (l : List Char) :
    Option (Nat × Nat) :=
  (matchMonth tbl l).bind fun mr =>
  (skipWs1 mr.2).bind fun r2 =>
  (dayCands r2).findSome? fun dr =>
    if dr.2 = [] then some (mr.1, dr.1) else none

/-- The with-year loop of `parse_event_date` (`scraper.py` lines 39-44):
formats `["%B %d, %Y", "%b %d, %Y", "%B %d %Y", "%b %d %Y"]` in order, a
`ValueError` (here: parse or constructor failure) moving to the next. -/
def tryFormatsWithYear (l : List Char) : Option Date :=
  [fmtMDY monthsFull true, fmtMDY monthsAbbr true,
   fmtMDY monthsFull false, fmtMDY monthsAbbr false].findSome?
    fun f => (f l).bind fun r =>
      if validDate r.2.2 r.1 r.2.1 then some ⟨r.2.2, r.1, r.2.1⟩ else none

/-- The no-year loop (`scraper.py` lines 47-57): formats `["%B %d", "%b %d"]`;
`strptime` validates the day against the default year 1900, then
`dt.replace(year=current_year)` validates against the current year; a
`ValueError` from either step moves to the next format. -/
def tryFormatsNoYear (currentYear : Nat) (l : List Char) : Option Date :=
  [fmtMD monthsFull, fmtMD monthsAbbr].findSome?
    fun f => (f l).bind fun md =>
      if validDate 1900 md.1 md.2 then
        (if validDate currentYear md.1 md.2 then
          some ⟨currentYear, md.1, md.2⟩ else none)
      else none

/-- Sakamoto's day-of-week formula (proleptic Gregorian, 0 = Sunday),
matching `datetime.strftime("%A")`. -/
def sakamotoTable : List Nat := [0, 3, 2, 5, 0, 3, 5, 1, 4, 6, 2, 4]

def dayOfWeek (y m d : Nat) : Nat :=
  let yy := if m < 3 then y - 1 else y
  (yy + yy / 4 + yy / 400 + sakamotoTable.getD (m - 1) 0 + d - yy / 100) % 7

def weekdayName (w : Nat) : String :=
  match w with
  | 0 => "Sunday" | 1 => "Monday" | 2 => "Tuesday" | 3 => "Wednesday"
  | 4 => "Thursday" | 5 => "Friday" | _ => "Saturday"

def monthNameOf (m : Nat) : String :=
  match m with
  | 1 => "January" | 2 => "February" | 3 => "March" | 4 => "April"
  | 5 => "May" | 6 => "June" | 7 => "July" | 8 => "August"
  | 9 => "September" | 10 => "October" | 11 => "November"
  | 12 => "December" | _ => ""

/-- `%d` in `strftime`: zero-padded two-digit day. -/
def twoDigit (n : Nat) : String :=
  if n < 10 then "0" ++ toString n else toString n

/-- `dt.strftime("%A, %B %d")` (`scraper.py` line 63). -/
def renderDate (d : Date) : String :=
  weekdayName (dayOfWeek d.year d.month d.day) ++ ", " ++ monthNameOf d.month
    ++ " " ++ twoDigit d.day

/-- The `dt` computed by `parse_event_date` (`scraper.py` lines 35-57)
from an already-cleaned string. -/
def computeDtClean (currentYear : Nat) (clean : String) : Option Date :=
  match (if hasFourDigitYear clean then tryFormatsWithYear clean.data
         else none) with
  | some d => some d
  | none => tryFormatsNoYear currentYear clean.data

def computeDt (currentYear : Nat) (s : String) : Option Date :=
  computeDtClean currentYear (cleanDateStr s)

/-- `parse_event_date` (`scraper.py` lines 20-63).  The only piece of
`datetime.now()` the function uses is the current year, passed explicitly. -/
def parse_event_date (currentYear : Nat) (date_str : String) :
    Option Date × String :=
  match computeDt currentYear date_str with
  | none => (none, date_str)
  | some d => (some d, renderDate d)

/-- Backtracking candidates for `\d{1,2}` at the head of `l` in the
clock-time regex: two digits first, then one. -/
def hourCands : List Char → List (List Char × List Char)
  | a :: b :: r =>
    (if a.isDigit ∧ b.isDigit then [([a, b], r)] else [])
    ++ (if a.isDigit then [([a], b :: r)] else [])
  | [a] => if a.isDigit then [([a], [])] else []
  | [] => []

/-- The trailing `(?:\s+\w+)?` of the clock-time regex (greedy, optional):
returns the consumed characters and the remainder. -/
def extWord (l : List Char) : List Char × List Char :=
  match l with
  | c :: _ =>
    if pyIsSpace c then
      if (l.dropWhile pyIsSpace).takeWhile isWordChar = [] then ([], l)
      else (l.takeWhile pyIsSpace ++ (l.dropWhile pyIsSpace).takeWhile isWordChar,
            (l.dropWhile pyIsSpace).drop
              ((l.dropWhile pyIsSpace).takeWhile isWordChar).length)
    else ([], l)
  | [] => ([], l)

/-- The part of the clock-time regex after `\d{1,2}`: literal `:`, two
digits, greedy `\s*`, the `AM|PM` alternation, then `(?:\s+\w+)?`. -/
def afterHour (h r1 : List Char) : Option (List Char × List Char) :=
  match r1 with
  | ':' :: m1 :: m2 :: r2 =>
    if m1.isDigit ∧ m2.isDigit then
      match r2.dropWhile pyIsSpace with
      | p :: 'M' :: r4 =>
        if p = 'A' ∨ p = 'P' then
          some (h ++ ':' :: m1 :: m2 :: (r2.takeWhile pyIsSpace
                ++ p :: 'M' :: (extWord r4).1), (extWord r4).2)
        else none
      | _ => none
    else none
  | _ => none

/-- One anchored attempt of `(\d{1,2}:\d{2}\s*(?:AM|PM)(?:\s+\w+)?)`
(`scraper.py` line 75): returns the matched token and the remainder. -/
def matchTimeAt (l : List Char) : Option (List Char × List Char) :=
  (hourCands l).findSome? fun hc => afterHour hc.1 hc.2

/-- `re.search` for the clock-time regex: the leftmost position where an
anchored attempt succeeds, as `(text before, match, text after)`. -/
def findTimeAux : List Char → Option (List Char × List Char × List Char)
  | [] => none
  | c :: rest =>
    match matchTimeAt (c :: rest) with
    | some tp => some ([], tp.1, tp.2)
    | none => (findTimeAux rest).map fun ptq => (c :: ptq.1, ptq.2.1, ptq.2.2)

def atSep : List Char := " at ".data

/-- `split_date_time` (`scraper.py` lines 65-82).  The `" at " in dt_str`
test and the subsequent `split(" at ", 1)` are fused into one first-
occurrence split, which is exactly what the pair of them computes. -/
def split_date_time (dt_str : String) : String × String :=
  if dt_str = "" ∨ dt_str = "N/A" then ("N/A", "N/A")
  else
    match splitFirstAux atSep dt_str.data with
    | some ba =>
      (String.mk (stripBothP pyIsSpace ba.1), String.mk (stripBothP pyIsSpace ba.2))
    | none =>
      match findTimeAux dt_str.data with
      | some ptq =>
        (String.mk (stripBothP isCommaSpace ptq.1),
         String.mk (stripBothP pyIsSpace ptq.2.1))
      | none => (String.mk (stripBothP pyIsSpace dt_str.data), "N/A")

/-- The name/link element of a row (`get_text(strip=True)`, `get('href','')`
are performed by the black-box HTML parser). -/
structure NameElem where
  text : String
  href : String
deriving DecidableEq

/-- The promotion link of a row: its text, the `alt` of its `img` child when
one exists (`get('alt','')` giving `""` for a missing attribute), and its
`href`. -/
structure PromoLink where
  text : String
  imgAlt : Option String
  href : String
deriving DecidableEq

/-- One `.geography span`: its `class` list, stripped text and whether it
contains an `img`. -/
structure GeoSpan where
  classes : List String
  text : String
  hasImg : Bool
deriving DecidableEq

/-- One candidate container (`div[data-controller="bout-toggler"]`), with
the results of the CSS-selector queries the loop body performs; the
selectors themselves belong to the black-box HTML parser. -/
structure Row where
  nameElemStrict : Option NameElem
  nameElemLoose : Option NameElem
  promoLink : Option PromoLink
  promoSpans : List String
  rowText : String
  geoSpans : List GeoSpan
  geoFrags : Option (List String)
deriving DecidableEq

/-- The final output record (`scraper.py` lines 214-221). -/
structure Event where
  event_name : String
  date : String
  time : String
  location : String
  promotion : String
  url : String
deriving DecidableEq

/-- Lines 115-118: the stricter selector, falling back to the looser one. -/
def resolveNameElem (row : Row) : Option NameElem :=
  match row.nameElemStrict with
  | some e => some e
  | none => row.nameElemLoose

def zuffaD : List Char := "zuffa".data

/-- Lines 135-140: `"zuffa"` in the promotion link's lowered text, image
alt or href. -/
def promoLinkZuffa (pl : PromoLink) : Bool :=
  containsTok zuffaD (lowerStr pl.text).data
  || containsTok zuffaD (lowerStr (pl.imgAlt.getD "")).data
  || containsTok zuffaD (lowerStr pl.href).data

def dayNamesStr : List String :=
  ["Monday", "Tuesday", "Wednesday", "Thursday", "Friday", "Saturday",
   "Sunday"]

/-- Lines 145-151: the first `.promotion span` whose text contains a
weekday name, else the sentinel. -/
def findDateSpan (spans : List String) : String :=
  match spans.find? (fun t => dayNamesStr.any fun d =>
      containsTok d.data t.data) with
  | some t => t
  | none => "N/A"

def venueKeywords : List String :=
  ["arena", "stadium", "center", "apex", "pavilion", "hall", "garden",
   "theatre", "club", "house", "lawn", "field", "dome", "complex",
   "square", "park", "apogee"]

/-- Lines 183-212: the location scan over `.geography` spans, with the
bullet-separated fallback when the first pass leaves the sentinel. -/
def findLocation (row : Row) : String :=
  let first := row.geoSpans.find? fun s =>
    !(s.classes.contains "sport") && !(s.text == "") && !s.hasImg
    && decide (1 < s.text.length)
    && !(venueKeywords.any fun kw => containsTok kw.data (lowerStr s.text).data)
    && !(containsTok "Boxing".data s.text.data
         || containsTok "MMA".data s.text.data)
  let loc1 := match first with
    | some s => s.text
    | none => "N/A"
  if loc1 = "N/A" then
    match row.geoFrags with
    | none => "N/A"
    | some frags =>
      let parts := (pySplitOn "•" (joinSep " • " frags)).map pyStrip
      match parts.find? (fun p =>
          !(p == "") && !(containsTok "Boxing".data p.data)
          && !(containsTok "MMA".data p.data) && decide (2 < p.length)) with
      | some p => pyStrip ((pySplitOn "," p).headD "")
      | none => "N/A"
  else loc1

/-- `dt >= today` on the dates the source compares (both at midnight):
lexicographic on (year, month, day). -/
def dateLe (a b : Date) : Bool :=
  decide (a.year < b.year ∨ (a.year = b.year ∧ (a.month < b.month
    ∨ (a.month = b.month ∧ a.day ≤ b.day))))

/-- The temporal-window rule (`scraper.py` lines 157-163): applied only
when a parsed instant is present; keeps dates in the current
month-and-year or on/after the reference date. -/
def temporalKeep (today : Date) (dt : Option Date) : Bool :=
  match dt with
  | none => true
  | some d => (d.month == today.month && d.year == today.year)
              || dateLe today d

/-- The parsed instant a row's date text produces (lines 144-155). -/
def rowParsedDate (today : Date) (row : Row) : Option Date :=
  (parse_event_date today.year
    (split_date_time (findDateSpan row.promoSpans)).1).1

/-- The body of the `for row in rows` loop (`scraper.py` lines 112-221):
`none` when the row is skipped by a `continue` (or its processing fails,
which the `try/except` at lines 222-223 turns into the same outcome),
`some` when a record is appended. -/
def processRow (today : Date) (promotion_name : String) (row : Row) :
    Option Event :=
  match resolveNameElem row with
  | none => none
  | some ne =>
    let name := ne.text
    let event_url :=
      if ¬(ne.href = "") ∧ pyStartsWith "/" ne.href = true then
        "https://www.tapology.com" ++ ne.href
      else ne.href
    if promotion_name = "Boxing"
        ∧ containsTok zuffaD (lowerStr name).data = true then none
    else if promotion_name = "Boxing"
        ∧ (match row.promoLink with
           | some pl => promoLinkZuffa pl
           | none => false) = true then none
    else
      let split := split_date_time (findDateSpan row.promoSpans)
      let parsed := parse_event_date today.year split.1
      if temporalKeep today parsed.1 = false then none
      else
        let is_title_fight := containsTok "Title Fight".data row.rowText.data
        let is_netflix := containsTok "Netflix".data row.rowText.data
        let is_generic_boxing :=
          promotion_name = "Boxing"
          ∨ (containsTok "boxing".data (lowerStr name).data = true
             ∧ containsTok zuffaD (lowerStr name).data = false)
        if is_generic_boxing ∧ is_title_fight = false ∧ is_netflix = false
        then none
        else if promotion_name = "Other" ∧ is_netflix = false then none
        else some
          { event_name := name
            date := parsed.2
            time := split.2
            location := findLocation row
            promotion := promotion_name
            url := event_url }

/-- A fetched page as the core sees it: the HTTP status and the candidate
containers the black-box selector finds (`scraper.py` lines 102-107; for
FightCenter URLs the selector is scoped differently, but either way the
core receives a list of containers). -/
structure Response where
  status : Nat
  rows : List Row
deriving DecidableEq

/-- `scrape_tapology` (`scraper.py` lines 89-227): a fetch exception or a
`raise_for_status` failure (any non-2xx status) is caught by the outer
`except` and yields `([], 0)`; otherwise every container is processed and
`(events, number of containers)` is returned.  The `is_results_page` flag
computed at line 93 is never used. -/
def scrape_tapology (today : Date) (resp : Except String Response)
    (promotion_name : String) : List Event × Nat :=
  match resp with
  | .error _ => ([], 0)
  | .ok r =>
    if 200 ≤ r.status ∧ r.status ≤ 299 then
      (r.rows.filterMap (processRow today promotion_name), r.rows.length)
    else ([], 0)

/-- The `while True` pagination loop of `main` (`scraper.py` lines
248-256), with explicit fuel standing for the unbounded iteration: fetch
page `n` (the bare URL for page 1), extend with its records, stop as soon
as a page has zero containers.  Returns the records and the number of
fetches performed. -/
def paginateLoop (today : Date) (fetch : String → Except String Response)
    (baseUrl promo : String) : Nat → Nat → List Event × Nat
  | 0, _ => ([], 0)
  | fuel + 1, page =>
    let url := if 1 < page then baseUrl ++ "&page=" ++ toString page
               else baseUrl
    let er := scrape_tapology today (fetch url) promo
    if er.2 = 0 then (er.1, 1)
    else
      let rest := paginateLoop today fetch baseUrl promo fuel (page + 1)
      (er.1 ++ rest.1, rest.2 + 1)

/-- The source-list loop of `main` (`scraper.py` lines 244-259): skip
non-tapology URLs, run the pagination loop for URLs ending in
`"&group=tv"`, otherwise fetch once; results are concatenated in source
order. -/
def mainLoop (today : Date) (fetch : String → Except String Response)
    (fuel : Nat) : List (String × String) → List Event
  | [] => []
  | (original_url, promo) :: rest =>
    (if containsTok "tapology.com".data original_url.data = false then []
     else if pyEndsWith "&group=tv" original_url = true then
       (paginateLoop today fetch original_url promo fuel 1).1
     else (scrape_tapology today (fetch original_url) promo).1)
    ++ mainLoop today fetch fuel rest

/-- A reference date for concrete instantiations (2026-10-12). -/
def refToday : Date := ⟨2026, 10, 12⟩

/-- A container every rule keeps: a name element, no date span (so the
temporal rule is skipped), nothing zuffa-flavoured, no markers needed
under the "UFC" label. -/
def keptRow : Row :=
  { nameElemStrict := some ⟨"A vs B", "/fightcenter/events/1"⟩
    nameElemLoose := none, promoLink := none, promoSpans := []
    rowText := "", geoSpans := [], geoFrags := none }

/-- A container with no name element at all: skipped by the guard at
`scraper.py` lines 120-121. -/
def namelessRow : Row :=
  { nameElemStrict := none, nameElemLoose := none, promoLink := none
    promoSpans := [], rowText := "", geoSpans := [], geoFrags := none }

/-- A candidate whose name carries the excluded-brand marker, together
with both a title-fight and a streaming marker in its row text. -/
def zuffaRow : Row :=
  { nameElemStrict := some ⟨"Zuffa Boxing: X vs Y", ""⟩
    nameElemLoose := none, promoLink := none, promoSpans := []
    rowText := "Title Fight Netflix", geoSpans := [], geoFrags := none }

/-- A candidate whose date span parses to a past date outside the current
month (relative to `refToday`). -/
def pastRow : Row :=
  { nameElemStrict := some ⟨"A vs B", ""⟩, nameElemLoose := none
    promoLink := none, promoSpans := ["Sunday, March 08, 2025"]
    rowText := "", geoSpans := [], geoFrags := none }

/-- A paged-source fetcher whose three pages hold 3, 2 and 0 containers. -/
def pagedBase : String := "https://www.tapology.com/fightcenter?sport=mma&group=tv"

def pagedFetch : String → Except String Response := fun u =>
  if u = pagedBase then .ok ⟨200, [keptRow, keptRow, keptRow]⟩
  else if u = pagedBase ++ "&page=" ++ toString 2 then .ok ⟨200, [keptRow, keptRow]⟩
  else if u = pagedBase ++ "&page=" ++ toString 3 then .ok ⟨200, []⟩
  else .error "not found"

/-- A fetcher that always fails. -/
def failFetch : String → Except String Response := fun _ => .error "timeout"

/-- The record `keptRow` produces under the "UFC" label. -/
def keptEvent : Event :=
  { event_name := "A vs B", date := "N/A", time := "N/A", location := "N/A"
    promotion := "UFC"
    url := "https://www.tapology.com/fightcenter/events/1" }
theorem dropStart?_eq_some {p l r : List Char} (h : dropStart? p l = some r) :
    l = p ++ r := by
  induction p generalizing l with
  | nil => simpa [dropStart?] using h
  | cons a ps ih =>
    cases l with
    | nil => simp [dropStart?] at h
    | cons c cs =>
      simp only [dropStart?] at h
      split at h
      · next heq => simpa [eq_of_beq heq] using ih h
      · exact absurd h (by simp)

theorem splitFirstAux_eq_some {sep l b a : List Char}
    (h : splitFirstAux sep l = some (b, a)) : l = b ++ sep ++ a := by
  induction l generalizing b with
  | nil => simp [splitFirstAux] at h
  | cons c rest ih =>
    simp only [splitFirstAux] at h
    split at h
    · next r heq =>
      simp only [Option.some.injEq, Prod.mk.injEq] at h
      obtain ⟨h1, h2⟩ := h
      subst h1; subst h2
      simpa using dropStart?_eq_some heq
    · cases hr : splitFirstAux sep rest with
      | none => rw [hr] at h; simp at h
      | some ba =>
        rw [hr] at h
        obtain ⟨b0, a0⟩ := ba
        simp only [Option.map_some', Option.some.injEq, Prod.mk.injEq] at h
        obtain ⟨h1, h2⟩ := h
        subst h2
        cases b with
        | nil => simp at h1
        | cons b1 bs =>
          simp only [List.cons.injEq] at h1
          obtain ⟨hb1, hbs⟩ := h1
          subst hb1; subst hbs
          simpa using ih hr

/-- C1: `parse_event_date` is total (never raises); when no format
matches it returns an absent parsed instant with the raw string unchanged
as `date_text`, and when a format matches the returned `date_text` is the
canonical rendering (weekday name, full month name, zero-padded day) of
the parsed instant, not the raw string. -/
theorem c1_normalizer_total_canonical (y : Nat) (s : String) :
    ((parse_event_date y s).1 = none ∧ (parse_event_date y s).2 = s)
    ∨ ∃ d, (parse_event_date y s).1 = some d
        ∧ (parse_event_date y s).2 = renderDate d := by
  unfold parse_event_date
  cases computeDt y s with
  | none => exact Or.inl ⟨rfl, rfl⟩
  | some d => exact Or.inr ⟨d, rfl, rfl⟩

/-- C9: the empty string and the sentinel `"N/A"` are mapped by
`split_date_time` to the sentinel pair, not partitioned. -/
theorem c9_sentinel_inputs :
    split_date_time "" = ("N/A", "N/A")
    ∧ split_date_time "N/A" = ("N/A", "N/A") := by
  constructor <;> decide

/-- C3 (counterexample): for `"Feb 7 at 5:00 PM "` the text after
`" at "` is `"5:00 PM "`, but `split_date_time` returns the stripped
`"5:00 PM"`, so the time part is not the text after `" at "` verbatim. -/
theorem c3_counterexample :
    splitFirstAux atSep ("Feb 7 at 5:00 PM ").data
      = some ("Feb 7".data, "5:00 PM ".data)
    ∧ (split_date_time "Feb 7 at 5:00 PM ").2 = "5:00 PM"
    ∧ ("5:00 PM" : String) ≠ "5:00 PM " := by
  refine ⟨by decide, by decide, by decide⟩

/-- C3 (amended): for every input containing the literal `" at "`,
`split_date_time` splits at the first occurrence and returns the text
before it and the text after it, each with leading and trailing
whitespace stripped (the time part is stripped, not verbatim). -/
theorem c3_amended_split_at (s : String) (b a : List Char)
    (h : splitFirstAux atSep s.data = some (b, a)) :
    split_date_time s
      = (String.mk (stripBothP pyIsSpace b), String.mk (stripBothP pyIsSpace a)) := by
  have hne : ¬(s = "" ∨ s = "N/A") := by
    rintro (rfl | rfl)
    · rw [show splitFirstAux atSep ("" : String).data = none from by decide] at h
      exact Option.noConfusion h
    · rw [show splitFirstAux atSep ("N/A" : String).data = none from by decide] at h
      exact Option.noConfusion h
  unfold split_date_time
  rw [if_neg hne, h]

theorem c3_witness :
    split_date_time "Feb 7 at 5:00 PM ET"
      = (String.mk (stripBothP pyIsSpace "Feb 7".data),
         String.mk (stripBothP pyIsSpace "5:00 PM ET".data)) :=
  c3_amended_split_at "Feb 7 at 5:00 PM ET" "Feb 7".data "5:00 PM ET".data
    (by decide)

/-- C5: under the generic "Boxing" promotion label, a candidate whose
resolved name — or whose promotion link's text, image alt or href —
contains `"zuffa"` case-insensitively is dropped, whatever the rest of
the row (in particular its title-fight / streaming markers) contains. -/
theorem c5_boxing_zuffa_excluded (today : Date) (row : Row) (ne : NameElem)
    (hne : resolveNameElem row = some ne)
    (hz : containsTok zuffaD (lowerStr ne.text).data = true
      ∨ ∃ pl, row.promoLink = some pl ∧ promoLinkZuffa pl = true) :
    processRow today "Boxing" row = none := by
  simp only [processRow, hne, true_and]
  by_cases hn : containsTok zuffaD (lowerStr ne.text).data = true
  · rw [if_pos hn]
  · obtain ⟨pl, hpl, hplz⟩ := hz.resolve_left hn
    rw [if_neg hn]
    simp only [hpl]
    rw [if_pos hplz]

theorem c5_witness : processRow refToday "Boxing" zuffaRow = none :=
  c5_boxing_zuffa_excluded refToday zuffaRow ⟨"Zuffa Boxing: X vs Y", ""⟩
    (by decide) (Or.inl (by decide))

/-- C6: the temporal-window rule is skipped (treated as keep) when no
parsed instant is present; with a parsed instant it keeps exactly the
dates in the reference date's month-and-year or on/after the reference
date; and a row whose parsed instant fails the rule is dropped. -/
theorem c6_temporal_window (today d : Date) (row : Row) (promo : String) :
    temporalKeep today none = true
    ∧ (temporalKeep today (some d) = true ↔
        ((d.month = today.month ∧ d.year = today.year) ∨ dateLe today d = true))
    ∧ (temporalKeep today (rowParsedDate today row) = false →
        processRow today promo row = none) := by
  refine ⟨rfl, ?_, ?_⟩
  · simp [temporalKeep]
  · intro h
    unfold rowParsedDate at h
    rcases hr : resolveNameElem row with _ | ne
    · simp only [processRow, hr]
    · simp only [processRow, hr]
      split_ifs with a1 a2 <;> rfl

theorem c6_witness : processRow refToday "UFC" pastRow = none :=
  (c6_temporal_window refToday ⟨2025, 3, 8⟩ pastRow "UFC").2.2 (by decide)

/-- C10: on a successfully fetched page, the records emitted never exceed
the container count (each container yields at most one record), and a
container whose processing yields no record — a `continue` or a caught
per-row exception, both modelled as `none` — leaves the accumulated
record list exactly as if the container were absent. -/
theorem c10_records_bounded_by_containers (today : Date) (promo : String)
    (rows pre post : List Row) (row : Row)
    (hskip : processRow today promo row = none) :
    ((scrape_tapology today (.ok ⟨200, rows⟩) promo).1.length
      ≤ (scrape_tapology today (.ok ⟨200, rows⟩) promo).2
     ∧ (scrape_tapology today (.ok ⟨200, rows⟩) promo).2 = rows.length)
    ∧ (scrape_tapology today (.ok ⟨200, pre ++ row :: post⟩) promo).1
        = (scrape_tapology today (.ok ⟨200, pre ++ post⟩) promo).1 := by
  have h200 : 200 ≤ 200 ∧ (200 : Nat) ≤ 299 := by omega
  refine ⟨⟨?_, rfl⟩, ?_⟩
  · simp only [scrape_tapology, if_pos h200]
    exact List.length_filterMap_le _ _
  · simp only [scrape_tapology, if_pos h200]
    simp [List.filterMap_append, hskip]

theorem c10_witness :
    (scrape_tapology refToday (.ok ⟨200, [namelessRow, keptRow]⟩) "UFC").1
      = (scrape_tapology refToday (.ok ⟨200, [keptRow]⟩) "UFC").1 :=
  (c10_records_bounded_by_containers refToday "UFC" [] [] [keptRow]
    namelessRow (by decide)).2

theorem mainLoop_append (today : Date)
    (fetch : String → Except String Response) (fuel : Nat)
    (l1 l2 : List (String × String)) :
    mainLoop today fetch fuel (l1 ++ l2)
      = mainLoop today fetch fuel l1 ++ mainLoop today fetch fuel l2 := by
  induction l1 with
  | nil => rfl
  | cons x rest ih => cases x; simp [mainLoop, ih]

/-- C8: a fetch exception, or a non-2xx status (which `raise_for_status`
turns into an exception), makes the page scrape return zero records and a
zero container count, and such a failure is not escalated: the main loop
over the remaining sources produces exactly what it would without the
failing source. -/
theorem c8_fetch_failure_not_escalated (today : Date) (promo msg : String)
    (r : Response) (fetch : String → Except String Response) (fuel : Nat)
    (pre post : List (String × String)) (u p : String)
    (hbad : ¬(200 ≤ r.status ∧ r.status ≤ 299))
    (hu : fetch u = .error msg) :
    scrape_tapology today (.error msg) promo = ([], 0)
    ∧ scrape_tapology today (.ok r) promo = ([], 0)
    ∧ mainLoop today fetch fuel (pre ++ (u, p) :: post)
        = mainLoop today fetch fuel pre ++ mainLoop today fetch fuel post := by
  refine ⟨rfl, ?_, ?_⟩
  · simp only [scrape_tapology]
    rw [if_neg hbad]
  · rw [mainLoop_append]
    congr 1
    simp only [mainLoop]
    have hcontrib : (if containsTok "tapology.com".data u.data = false then []
        else if pyEndsWith "&group=tv" u = true then
          (paginateLoop today fetch u p fuel 1).1
        else (scrape_tapology today (fetch u) p).1) = ([] : List Event) := by
      split_ifs with hs1 hs2
      · rfl
      · cases fuel with
        | zero => rfl
        | succ k => simp [paginateLoop, hu, scrape_tapology]
      · simp [hu, scrape_tapology]
    rw [hcontrib, List.nil_append]

theorem c8_witness :
    scrape_tapology refToday (.error "timeout") "UFC" = ([], 0)
    ∧ scrape_tapology refToday (.ok ⟨404, []⟩) "UFC" = ([], 0)
    ∧ mainLoop refToday failFetch 5 ([] ++ (pagedBase, "UFC") :: [])
        = mainLoop refToday failFetch 5 [] ++ mainLoop refToday failFetch 5 [] :=
  c8_fetch_failure_not_escalated refToday "UFC" "timeout" ⟨404, []⟩ failFetch 5
    [] [] pagedBase "UFC" (by decide) rfl

/-- C7: when a paged source's successive pages hold 3, 2 and 0 candidate
containers (yielding 3, 2 and 0 records), the pagination loop performs
exactly 3 fetches and returns exactly 5 records; the zero-container page
is terminal and necessarily contributes an empty record list. -/
theorem c7_pagination_terminates_on_empty_page (today : Date)
    (fetch : String → Except String Response) (base promo : String)
    (k : Nat) (e1 e2 e3 : List Event)
    (h1 : scrape_tapology today (fetch base) promo = (e1, 3))
    (h2 : scrape_tapology today (fetch (base ++ "&page=" ++ toString 2)) promo
            = (e2, 2))
    (h3 : scrape_tapology today (fetch (base ++ "&page=" ++ toString 3)) promo
            = (e3, 0))
    (hl1 : e1.length = 3) (hl2 : e2.length = 2) :
    paginateLoop today fetch base promo (k + 3) 1 = (e1 ++ e2 ++ e3, 3)
    ∧ e3 = [] ∧ (e1 ++ e2 ++ e3).length = 5 := by
  have he3 : e3 = [] := by
    cases hf : fetch (base ++ "&page=" ++ toString 3) with
    | error m =>
      rw [hf] at h3
      simpa [scrape_tapology] using congrArg Prod.fst h3.symm
    | ok r =>
      rw [hf] at h3
      simp only [scrape_tapology] at h3
      split at h3
      · have hlen : r.rows.length = 0 := congrArg Prod.snd h3
        have : r.rows = [] := List.eq_nil_of_length_eq_zero hlen
        rw [this] at h3
        simpa using congrArg Prod.fst h3.symm
      · simpa using congrArg Prod.fst h3.symm
  refine ⟨?_, he3, ?_⟩
  · show paginateLoop today fetch base promo (Nat.succ (Nat.succ (Nat.succ k))) 1
      = (e1 ++ e2 ++ e3, 3)
    simp [paginateLoop, h1, h2, h3, he3]
  · simp [he3, hl1, hl2]

theorem c7_witness :
    paginateLoop refToday pagedFetch pagedBase "UFC" (0 + 3) 1
      = ([keptEvent, keptEvent, keptEvent] ++ [keptEvent, keptEvent] ++ [], 3)
    ∧ ([] : List Event) = []
    ∧ (([keptEvent, keptEvent, keptEvent] ++ [keptEvent, keptEvent]
        ++ ([] : List Event))).length = 5 :=
  c7_pagination_terminates_on_empty_page refToday pagedFetch pagedBase "UFC" 0
    [keptEvent, keptEvent, keptEvent] [keptEvent, keptEvent] []
    (by decide) (by decide) (by decide) (by decide) (by decide)

theorem wordChar_not_space {c : Char} (h : isWordChar c = true) :
    pyIsSpace c = false := by
  cases hsp : pyIsSpace c
  · rfl
  · exfalso
    simp only [pyIsSpace, Bool.or_eq_true, beq_iff_eq] at hsp
    rcases hsp with ((((rfl | rfl) | rfl) | rfl) | rfl) | rfl <;>
      exact absurd h (by decide)

theorem digit_not_space {c : Char} (h : c.isDigit = true) :
    pyIsSpace c = false := by
  cases hsp : pyIsSpace c
  · rfl
  · exfalso
    simp only [pyIsSpace, Bool.or_eq_true, beq_iff_eq] at hsp
    rcases hsp with ((((rfl | rfl) | rfl) | rfl) | rfl) | rfl <;>
      exact absurd h (by decide)

theorem drop_len_takeWhile (p : Char → Bool) (l : List Char) :
    l.drop (l.takeWhile p).length = l.dropWhile p := by
  induction l with
  | nil => rfl
  | cons c t ih =>
    by_cases h : p c
    · simp [List.takeWhile_cons, List.dropWhile_cons, h, ih]
    · simp [List.takeWhile_cons, List.dropWhile_cons, h]

theorem stripLeft_cons_of {c : Char} {t : List Char} (h : pyIsSpace c = false) :
    stripLeftP pyIsSpace (c :: t) = c :: t := by
  simp [stripLeftP, List.dropWhile_cons, h]

theorem stripRight_append_of {pre w : List Char} (hw : w ≠ [])
    (hall : ∀ c ∈ w, pyIsSpace c = false) :
    stripRightP pyIsSpace (pre ++ w) = pre ++ w := by
  unfold stripRightP
  rw [List.reverse_append]
  cases hwr : w.reverse with
  | nil => exact absurd (List.reverse_eq_nil_iff.mp hwr) hw
  | cons c t =>
    have hc : c ∈ w := by
      rw [← List.mem_reverse, hwr]; exact List.mem_cons_self _ _
    rw [List.cons_append, List.dropWhile_cons, hall c hc]
    simp only [Bool.false_eq_true, if_false]
    rw [← List.cons_append, ← hwr, ← List.reverse_append, List.reverse_reverse]

theorem extWord_spec (l : List Char) :
    (extWord l).1 ++ (extWord l).2 = l
    ∧ ((extWord l).1 = []
       ∨ ∃ sp w, (extWord l).1 = sp ++ w ∧ w ≠ []
           ∧ ∀ c ∈ w, isWordChar c = true) := by
  cases l with
  | nil => exact ⟨rfl, Or.inl rfl⟩
  | cons c t =>
    simp only [extWord]
    by_cases hsp : pyIsSpace c = true
    · rw [if_pos hsp]
      by_cases hw : ((c :: t).dropWhile pyIsSpace).takeWhile isWordChar = []
      · rw [if_pos hw]
        exact ⟨rfl, Or.inl rfl⟩
      · rw [if_neg hw]
        refine ⟨?_, Or.inr ⟨_, _, rfl, hw, fun x hx => List.mem_takeWhile_imp hx⟩⟩
        rw [List.append_assoc, drop_len_takeWhile, List.takeWhile_append_dropWhile,
          List.takeWhile_append_dropWhile]
    · rw [if_neg hsp]
      exact ⟨rfl, Or.inl rfl⟩

theorem hourCands_spec {l : List Char} {hc : List Char × List Char}
    (h : hc ∈ hourCands l) :
    hc.1 ++ hc.2 = l ∧ ∃ a t', hc.1 = a :: t' ∧ a.isDigit = true := by
  match l with
  | [] => simp [hourCands] at h
  | [a] =>
    rw [hourCands] at h
    split at h
    · next hd =>
      simp only [List.mem_singleton] at h
      subst h
      exact ⟨rfl, a, [], rfl, hd⟩
    · simp at h
  | a :: b :: r =>
    rw [hourCands] at h
    rcases List.mem_append.mp h with h2 | h1
    · split at h2
      · next hd =>
        simp only [List.mem_singleton] at h2
        subst h2
        exact ⟨rfl, a, [b], rfl, hd.1⟩
      · simp at h2
    · split at h1
      · next hd =>
        simp only [List.mem_singleton] at h1
        subst h1
        exact ⟨rfl, a, [], rfl, hd⟩
      · simp at h1

theorem afterHour_spec {h r1 tok rest : List Char}
    (hm : afterHour h r1 = some (tok, rest)) :
    tok ++ rest = h ++ r1
    ∧ (∃ tl, tok = h ++ ':' :: tl)
    ∧ ∃ pre w, tok = pre ++ w ∧ w ≠ [] ∧ ∀ c ∈ w, pyIsSpace c = false := by
  unfold afterHour at hm
  split at hm
  · next m1 m2 r2 =>
    split at hm
    · next hdig =>
      split at hm
      · next p r4 heq =>
        split at hm
        · next hp =>
          simp only [Option.some.injEq, Prod.mk.injEq] at hm
          obtain ⟨htok, hrest⟩ := hm
          subst htok; subst hrest
          have h1 := (extWord_spec r4).1
          have h2 : r2.takeWhile pyIsSpace ++ (p :: 'M' :: r4) = r2 := by
            conv_rhs => rw [← List.takeWhile_append_dropWhile pyIsSpace r2]
            rw [heq]
          refine ⟨?_, ⟨_, rfl⟩, ?_⟩
          · conv_rhs => rw [← h2, ← h1]
            simp [List.append_assoc]
          · rcases (extWord_spec r4).2 with hE | ⟨sp2, w, hE, hw, hwall⟩
            · refine ⟨h ++ ':' :: m1 :: m2 :: r2.takeWhile pyIsSpace, [p, 'M'],
                ?_, by simp, ?_⟩
              · rw [hE]
                simp [List.append_assoc]
              · intro c hc
                rcases List.mem_cons.mp hc with rfl | hc2
                · rcases hp with rfl | rfl <;> decide
                · rcases List.mem_cons.mp hc2 with rfl | hc3
                  · decide
                  · simp at hc3
            · refine ⟨h ++ ':' :: m1 :: m2
                  :: (r2.takeWhile pyIsSpace ++ p :: 'M' :: sp2), w,
                ?_, hw, fun c hc => wordChar_not_space (hwall c hc)⟩
              rw [hE]
              simp [List.append_assoc]
        · exact Option.noConfusion hm
      · exact Option.noConfusion hm
    · exact Option.noConfusion hm
  · exact Option.noConfusion hm

theorem matchTimeAt_spec {l tok rest : List Char}
    (hm : matchTimeAt l = some (tok, rest)) :
    l = tok ++ rest ∧ stripBothP pyIsSpace tok = tok := by
  obtain ⟨hc, hmem, hsome⟩ := List.exists_of_findSome?_eq_some hm
  obtain ⟨hpart, a, t', hhead, hdig⟩ := hourCands_spec hmem
  obtain ⟨hpart2, ⟨tl, htl⟩, pre, w, htok, hw, hall⟩ := afterHour_spec hsome
  constructor
  · rw [← hpart]
    exact hpart2.symm
  · have hleft : stripLeftP pyIsSpace tok = tok := by
      rw [htl, hhead, List.cons_append]
      exact stripLeft_cons_of (digit_not_space hdig)
    unfold stripBothP
    rw [hleft, htok]
    exact stripRight_append_of hw hall

theorem findTimeAux_spec {l p t q : List Char}
    (h : findTimeAux l = some (p, t, q)) :
    l = p ++ t ++ q ∧ stripBothP pyIsSpace t = t := by
  induction l generalizing p t q with
  | nil => exact Option.noConfusion h
  | cons c rest ih =>
    simp only [findTimeAux] at h
    split at h
    · next tp heq =>
      simp only [Option.some.injEq, Prod.mk.injEq] at h
      obtain ⟨h1, h2, h3⟩ := h
      subst h1; subst h2; subst h3
      obtain ⟨hp, hs⟩ := matchTimeAt_spec heq
      exact ⟨by simpa using hp, hs⟩
    · cases hr : findTimeAux rest with
      | none => rw [hr] at h; exact Option.noConfusion h
      | some ptq =>
        rw [hr] at h
        simp only [Option.map_some', Option.some.injEq, Prod.mk.injEq] at h
        obtain ⟨h1, h2, h3⟩ := h
        obtain ⟨hp, hs⟩ := ih hr
        subst h1; subst h2; subst h3
        exact ⟨by simp [hp], hs⟩

theorem dropWhile_eq_self_of_takeWhile_nil {pr : Char → Bool} {l : List Char}
    (h : l.takeWhile pr = []) : l.dropWhile pr = l := by
  conv_rhs => rw [← List.takeWhile_append_dropWhile pr l]
  rw [h, List.nil_append]

theorem stripRight_decomp (pr : Char → Bool) (l : List Char) :
    l = stripRightP pr l ++ (l.reverse.takeWhile pr).reverse
    ∧ ∀ c ∈ (l.reverse.takeWhile pr).reverse, pr c = true := by
  constructor
  · conv_lhs => rw [← List.reverse_reverse l,
      ← List.takeWhile_append_dropWhile pr l.reverse, List.reverse_append]
    rfl
  · intro c hc
    rw [List.mem_reverse] at hc
    exact List.mem_takeWhile_imp hc

/-- C2 (amended): for every input without `" at "` in which the clock-time
regex finds a (leftmost) match `input = before ++ token ++ after`,
`split_date_time` returns the time part equal to the matched token exactly
and the date part equal to `before` with comma/space characters stripped
from both ends; the characters dropped are thus limited to `after` (any
text following the token) and the stripped comma/space runs around the
date part.  When the token ends the input and `before` does not begin
with comma/space characters, date part + separator + time part is an
exact reconstruction of the input. -/
theorem c2_amended_time_token_split (s : String) (p t q : List Char)
    (hnoat : containsTok atSep s.data = false)
    (hf : findTimeAux s.data = some (p, t, q)) :
    split_date_time s = (String.mk (stripBothP isCommaSpace p), String.mk t)
    ∧ s.data = p ++ t ++ q
    ∧ (q = [] → p.takeWhile isCommaSpace = [] →
        ∃ sep : List Char, (∀ c ∈ sep, isCommaSpace c = true)
          ∧ s.data = stripBothP isCommaSpace p ++ (sep ++ t)) := by
  obtain ⟨hpart, hstrip⟩ := findTimeAux_spec hf
  have hne : ¬(s = "" ∨ s = "N/A") := by
    rintro (rfl | rfl)
    · rw [show findTimeAux ("" : String).data = none from rfl] at hf
      exact Option.noConfusion hf
    · rw [show findTimeAux ("N/A" : String).data = none from by decide] at hf
      exact Option.noConfusion hf
  have hsf : splitFirstAux atSep s.data = none := by
    cases hsf0 : splitFirstAux atSep s.data with
    | none => rfl
    | some ba => simp [containsTok, hsf0] at hnoat
  refine ⟨?_, hpart, ?_⟩
  · unfold split_date_time
    rw [if_neg hne, hsf, hf]
    show (String.mk (stripBothP isCommaSpace p), String.mk (stripBothP pyIsSpace t))
      = (String.mk (stripBothP isCommaSpace p), String.mk t)
    rw [hstrip]
  · intro hq htw
    have hdw : p.dropWhile isCommaSpace = p :=
      dropWhile_eq_self_of_takeWhile_nil htw
    obtain ⟨hdec, hmem⟩ := stripRight_decomp isCommaSpace p
    refine ⟨(p.reverse.takeWhile isCommaSpace).reverse, hmem, ?_⟩
    have hboth : stripBothP isCommaSpace p = stripRightP isCommaSpace p := by
      unfold stripBothP stripLeftP
      rw [hdw]
    rw [hpart, hq, List.append_nil, hboth]
    conv_lhs => rw [hdec]
    rw [List.append_assoc]

/-- C2 (counterexample): on `"Dec 12, 3:00 AM ET bonus"` (no `" at "`,
clock-time pattern present) the split returns
`("Dec 12", "3:00 AM ET")`, and no choice of separator makes
date part ++ separator ++ time part reconstruct the input: the trailing
`" bonus"` after the matched token is dropped, so the split is not a pure
partition of the input. -/
theorem c2_counterexample :
    split_date_time "Dec 12, 3:00 AM ET bonus" = ("Dec 12", "3:00 AM ET")
    ∧ ∀ sep : List Char,
        String.mk ("Dec 12".data ++ (sep ++ "3:00 AM ET".data))
          ≠ "Dec 12, 3:00 AM ET bonus" := by
  refine ⟨by decide, ?_⟩
  intro sep h
  have hl : "Dec 12".data ++ (sep ++ "3:00 AM ET".data)
      = "Dec 12, 3:00 AM ET bonus".data := congrArg String.data h
  have hsuf : "3:00 AM ET".data <:+ "Dec 12, 3:00 AM ET bonus".data := by
    rw [← hl, ← List.append_assoc]
    exact List.suffix_append _ _
  exact absurd hsuf (by decide)

theorem c2_witness :
    split_date_time "Dec 12, 3:00 AM ET"
      = (String.mk (stripBothP isCommaSpace "Dec 12, ".data),
         String.mk "3:00 AM ET".data)
    ∧ ("Dec 12, 3:00 AM ET" : String).data
        = "Dec 12, ".data ++ "3:00 AM ET".data ++ []
    ∧ (([] : List Char) = [] → "Dec 12, ".data.takeWhile isCommaSpace = [] →
        ∃ sep : List Char, (∀ c ∈ sep, isCommaSpace c = true)
          ∧ ("Dec 12, 3:00 AM ET" : String).data
              = stripBothP isCommaSpace "Dec 12, ".data
                ++ (sep ++ "3:00 AM ET".data)) :=
  c2_amended_time_token_split "Dec 12, 3:00 AM ET" "Dec 12, ".data
    "3:00 AM ET".data [] (by decide) (by decide)

set_option maxHeartbeats 8000000 in
theorem clean_canon : ∀ w < 7, ∀ m < 13, ∀ dy < 32, 1 ≤ m ∧ 1 ≤ dy →
    cleanDateStr (weekdayName w ++ ", " ++ monthNameOf m ++ " " ++ twoDigit dy)
      = monthNameOf m ++ " " ++ twoDigit dy := by
  decide

set_option maxHeartbeats 4000000 in
theorem canon_no_four_digit : ∀ m < 13, ∀ dy < 32, 1 ≤ m ∧ 1 ≤ dy →
    hasFourDigitYear (monthNameOf m ++ " " ++ twoDigit dy) = false := by
  decide

set_option maxHeartbeats 4000000 in
theorem canon_md_full : ∀ m < 13, ∀ dy < 32, 1 ≤ m ∧ 1 ≤ dy →
    fmtMD monthsFull (monthNameOf m ++ " " ++ twoDigit dy).data
      = some (m, dy) := by
  decide

set_option maxHeartbeats 4000000 in
theorem canon_md_abbr : ∀ m < 13, ∀ dy < 32, 1 ≤ m ∧ 1 ≤ dy →
    fmtMD monthsAbbr (monthNameOf m ++ " " ++ twoDigit dy).data
      = cond (m == 5) (some (m, dy)) none := by
  decide

theorem daysInMonth_le (y m : Nat) : daysInMonth y m ≤ 31 := by
  unfold daysInMonth
  split_ifs <;> omega

theorem dayOfWeek_lt7 (y m d : Nat) : dayOfWeek y m d < 7 := by
  unfold dayOfWeek
  exact Nat.mod_lt _ (by omega)

theorem tryNoYear_canon (y m dy : Nat) (hm13 : m < 13) (hd32 : dy < 32)
    (hm : 1 ≤ m) (hd : 1 ≤ dy) :
    tryFormatsNoYear y (monthNameOf m ++ " " ++ twoDigit dy).data
      = (if validDate 1900 m dy then
          (if validDate y m dy then some ⟨y, m, dy⟩ else none)
         else none) := by
  have hfull := canon_md_full m hm13 dy hd32 ⟨hm, hd⟩
  have habbr := canon_md_abbr m hm13 dy hd32 ⟨hm, hd⟩
  simp only [String.data_append, List.append_assoc, List.singleton_append]
    at hfull habbr
  cases hm5 : (m == 5) <;>
    by_cases hv : validDate 1900 m dy <;>
      by_cases hv2 : validDate y m dy <;>
        simp [tryFormatsNoYear, List.findSome?_cons, List.findSome?_nil,
          hfull, habbr, hm5, hv, hv2]

theorem tryFormatsWithYear_valid {l : List Char} {d : Date}
    (h : tryFormatsWithYear l = some d) :
    validDate d.year d.month d.day := by
  unfold tryFormatsWithYear at h
  obtain ⟨f, hmem, hf⟩ := List.exists_of_findSome?_eq_some h
  cases hfl : f l with
  | none => rw [hfl] at hf; exact Option.noConfusion hf
  | some r =>
    rw [hfl] at hf
    simp only [Option.some_bind] at hf
    split at hf
    · next hv =>
      simp only [Option.some.injEq] at hf
      subst hf
      exact hv
    · exact Option.noConfusion hf

theorem tryFormatsNoYear_valid {y : Nat} {l : List Char} {d : Date}
    (h : tryFormatsNoYear y l = some d) :
    validDate d.year d.month d.day ∧ d.year = y := by
  unfold tryFormatsNoYear at h
  obtain ⟨f, hmem, hf⟩ := List.exists_of_findSome?_eq_some h
  cases hfl : f l with
  | none => rw [hfl] at hf; exact Option.noConfusion hf
  | some r =>
    rw [hfl] at hf
    simp only [Option.some_bind] at hf
    split at hf
    · split at hf
      · next hv =>
        simp only [Option.some.injEq] at hf
        subst hf
        exact ⟨hv, rfl⟩
      · exact Option.noConfusion hf
    · exact Option.noConfusion hf

theorem computeDt_valid {y : Nat} {s : String} {d : Date}
    (h : computeDt y s = some d) : validDate d.year d.month d.day := by
  unfold computeDt computeDtClean at h
  split at h
  · next d0 heq =>
    simp only [Option.some.injEq] at h
    subst h
    split at heq
    · exact tryFormatsWithYear_valid heq
    · exact Option.noConfusion heq
  · exact (tryFormatsNoYear_valid h).1

theorem parse_event_date_inv {y : Nat} {s : String} {d : Date}
    (h : (parse_event_date y s).1 = some d) :
    computeDt y s = some d ∧ (parse_event_date y s).2 = renderDate d := by
  unfold parse_event_date at h ⊢
  cases hcd : computeDt y s with
  | none => rw [hcd] at h; exact Option.noConfusion h
  | some d0 =>
    rw [hcd] at h
    have hd : d0 = d := by simpa using h
    subst hd
    exact ⟨rfl, rfl⟩

/-- C4 (counterexample): the normalizer is not idempotent on its canonical
output.  With reference year 2026, `"March 8, 2024"` normalizes to
`"Friday, March 08"` (March 8, 2024 was a Friday); re-normalizing that
canonical text re-parses it without a year, injects the current year 2026
and renders `"Sunday, March 08"` (March 8, 2026 is a Sunday) — a
different `date_text`. -/
theorem c4_counterexample :
    parse_event_date 2026 "March 8, 2024"
      = (some ⟨2024, 3, 8⟩, "Friday, March 08")
    ∧ parse_event_date 2026 "Friday, March 08"
      = (some ⟨2026, 3, 8⟩, "Sunday, March 08")
    ∧ ("Sunday, March 08" : String) ≠ "Friday, March 08" := by
  refine ⟨by decide, by decide, by decide⟩

/-- C4 (amended): the normalizer is idempotent on its canonical output
whenever the first parse's instant lies in the current year — in
particular for every raw string parsed without an explicit four-digit
year.  (With an explicit year different from the current one, the second
normalization recomputes the weekday for the current year and may change
the text.)  The second normalization either re-parses the same month and
day, rendering the identical text, or fails — for February 29 the no-year
parse validates against 1900 — and then returns its input unchanged. -/
theorem c4_amended_idempotent_same_year (y : Nat) (raw : String) (d : Date)
    (hp : (parse_event_date y raw).1 = some d) (hy : d.year = y) :
    (parse_event_date y ((parse_event_date y raw).2)).2
      = (parse_event_date y raw).2 := by
  obtain ⟨hc, hr⟩ := parse_event_date_inv hp
  have hv : validDate d.year d.month d.day := computeDt_valid hc
  obtain ⟨hy1, hy2, hm1, hm2, hd1, hd2⟩ := hv
  have hvy : validDate y d.month d.day := by
    rw [← hy]; exact ⟨hy1, hy2, hm1, hm2, hd1, hd2⟩
  have hd31 : d.day ≤ 31 := le_trans hd2 (daysInMonth_le _ _)
  rw [hr]
  have hwk : dayOfWeek d.year d.month d.day < 7 := dayOfWeek_lt7 _ _ _
  have hclean : cleanDateStr (renderDate d)
      = monthNameOf d.month ++ " " ++ twoDigit d.day :=
    clean_canon _ hwk _ (by omega) _ (by omega) ⟨hm1, hd1⟩
  have hnf : hasFourDigitYear (monthNameOf d.month ++ " " ++ twoDigit d.day)
      = false :=
    canon_no_four_digit _ (by omega) _ (by omega) ⟨hm1, hd1⟩
  have hnyr := tryNoYear_canon y d.month d.day (by omega) (by omega) hm1 hd1
  have hcompute : computeDt y (renderDate d)
      = (if validDate 1900 d.month d.day then
          (if validDate y d.month d.day then some ⟨y, d.month, d.day⟩
           else none)
         else none) := by
    unfold computeDt computeDtClean
    rw [hclean, hnf]
    simp only [Bool.false_eq_true, if_false]
    exact hnyr
  by_cases h19 : validDate 1900 d.month d.day
  · have hsome : computeDt y (renderDate d) = some ⟨y, d.month, d.day⟩ := by
      rw [hcompute, if_pos h19, if_pos hvy]
    have hde : (⟨y, d.month, d.day⟩ : Date) = d := by
      cases d
      simp only at hy ⊢
      rw [hy]
    unfold parse_event_date
    rw [hsome, hde]
  · have hnone : computeDt y (renderDate d) = none := by
      rw [hcompute, if_neg h19]
    unfold parse_event_date
    rw [hnone]

theorem c4_witness :
    (parse_event_date 2026 ((parse_event_date 2026 "October 5").2)).2
      = (parse_event_date 2026 "October 5").2 :=
  c4_amended_idempotent_same_year 2026 "October 5" ⟨2026, 10, 5⟩
    (by decide) rfl
